import Mathlib

/-!
Verification of the sf-bulk-api client (Salesforce Bulk API wrapper).

The repository's core is a line-oriented result-stream assembly pipeline
(`getQueryResults` in the main module) built from three stream transforms
(`JunkRemovr`, `HeaderRemovr`, `newlineAddr`), a line splitter (`byline`),
and a stream concatenation that interposes a newline between segments,
plus a stateful `BulkApi` class (cached login / job creation, batch
enumeration, jobId resolution).

Byte streams are modelled as `List Char`; the line transforms become
folds over the list of lines; the stateful methods become explicit
state-passing functions over an `ApiState` record, with the remote
service and the XML parser supplied as an `Env` of response/parse
functions and with every issued network request recorded in a trace.
-/

namespace SfBulk

/-- A raw byte stream (one result segment's content, a line, etc.). -/
abbrev Bytes := List Char

/-- Whitespace characters as recognised by JavaScript
`String.prototype.trim` (the ASCII ones). -/
def isWsChar (c : Char) : Bool :=
  c == ' ' || c == '\t' || c == '\n' || c == '\r' ||
  c == '\u000B' || c == '\u000C'

/-- `chunk.toString().trim().length === 0`: the line consists only of
whitespace (this includes the empty line). -/
def isBlankLine (l : Bytes) : Bool := l.all isWsChar

/-- Split a byte stream at `'\n'` characters; `acc` holds the
characters of the current (unfinished) line in reverse. -/
def splitNlAux : Bytes → Bytes → List Bytes
  | [], acc => [acc.reverse]
  | c :: rest, acc =>
      if c = '\n' then acc.reverse :: splitNlAux rest []
      else splitNlAux rest (c :: acc)

/-- The `byline` line splitter used by `getQueryResults`: splits the
combined stream into lines and (by default) drops empty lines. -/
def bylineSplit (s : Bytes) : List Bytes :=
  (splitNlAux s []).filter (fun l => !l.isEmpty)

/-- Unanchored substring containment, the semantics of
`/Records not found for this query/.test(line)`. -/
def containsSub (pat : Bytes) : Bytes → Bool
  | [] => pat.isEmpty
  | c :: rest => pat.isPrefixOf (c :: rest) || containsSub pat rest

/-- The text of the first built-in junk regex. -/
def noRecordsPat : Bytes := "Records not found for this query".data

/-- The semantics of `/^#.*/.test(line)`: the line starts with `#`. -/
def startsWithHash : Bytes → Bool
  | [] => false
  | c :: _ => c == '#'

/-- `JunkRemovr._transform`'s loop over `this.junk`: the chunk is junk
iff some configured pattern matches it. -/
def matchesAnyJunk (junk : List (Bytes → Bool)) (l : Bytes) : Bool :=
  junk.any (fun p => p l)

/-- The two junk patterns `getQueryResults` configures `JunkRemovr`
with. -/
def builtinJunk : List (Bytes → Bool) :=
  [containsSub noRecordsPat, startsWithHash]

/-- The `JunkRemovr` transform: drop every line matching one of the
configured patterns, pass every other line through unchanged. -/
def junkRemovr (junk : List (Bytes → Bool)) (ls : List Bytes) : List Bytes :=
  ls.filter (fun l => !matchesAnyJunk junk l)

/-- The `HeaderRemovr` transform, with `this.header` made explicit as
the `Option Bytes` argument: blank lines are dropped; the first
non-blank line is recorded as the header and passed through; every
later line equal to the recorded header is dropped. -/
def headerRemovrGo : Option Bytes → List Bytes → List Bytes
  | _, [] => []
  | st, l :: ls =>
      if isBlankLine l then headerRemovrGo st ls
      else
        match st with
        | some h => if l = h then headerRemovrGo (some h) ls
                    else l :: headerRemovrGo (some h) ls
        | none => l :: headerRemovrGo (some l) ls

/-- A fresh `HeaderRemovr` (header not yet recorded), as piped into by
`getQueryResults`. -/
def headerRemovr (ls : List Bytes) : List Bytes := headerRemovrGo none ls

/-- The `newlineAddr` transform: re-append one `'\n'` to every
non-blank line, drop blank lines. -/
def newlineAddr (ls : List Bytes) : List Bytes :=
  ls.filterMap (fun l => if isBlankLine l then none else some (l ++ ['\n']))

/-- The highland concatenation in `getQueryResults`:
`result = result.concat(streams[i]).concat(['\n'])` for each segment
stream, starting from the empty stream. -/
def mergeSegments (segs : List Bytes) : Bytes :=
  segs.foldl (fun acc s => acc ++ s ++ ['\n']) []

/-- The full `getQueryResults` post-fetch pipeline applied to the
ordered list of segment streams: concatenate with newline separators,
byline-split, junk-filter, header-deduplicate, restore newlines. -/
def assembleMerged (segs : List Bytes) : List Bytes :=
  newlineAddr (headerRemovr (junkRemovr builtinJunk (bylineSplit (mergeSegments segs))))

/-- The fields of one `<batchInfo>` element that the client reads. -/
structure BatchInfo where
  id : String
  state : String
deriving DecidableEq

/-- The `fast-xml-parser` quirk made explicit: a repeated XML element
parses to a bare object when it occurs once and to an array when it
occurs several times. -/
inductive OneOrMany (α : Type) where
  | one : α → OneOrMany α
  | many : List α → OneOrMany α
deriving DecidableEq

/-- The `if (!Array.isArray(x)) x = [x]` normalization. -/
def asArray : OneOrMany α → List α
  | .one a => [a]
  | .many l => l

/-- `processBatchListResponse` of `src/index.js`: normalize the parsed
batch list and push the id of every batch whose state is not
`NotProcessed` onto `this.batchIds`. -/
def processBatchListResponse (raw : OneOrMany BatchInfo) : List String :=
  (asArray raw).foldl
    (fun acc bi => if bi.state ≠ "NotProcessed" then acc ++ [bi.id] else acc) []

/-- The stream-collection loop of `getQueryResults` (main module): for
each batch whose state is not `NotProcessed`, append all of that
batch's result-segment streams (`segmentsOf` maps a batch id to its
ordered segment streams). -/
def selectStreams (batchInfos : List BatchInfo) (segmentsOf : String → List Bytes) :
    List Bytes :=
  batchInfos.foldl
    (fun acc bi => if bi.state ≠ "NotProcessed" then acc ++ segmentsOf bi.id else acc) []

/-- The merge semantics of `getQueryResults` (main module): collect the
segment streams of every non-`NotProcessed` batch in enumeration order
and run the assembly pipeline over them. -/
def getQueryResults (batchInfos : List BatchInfo) (segmentsOf : String → List Bytes) :
    List Bytes :=
  assembleMerged (selectStreams batchInfos segmentsOf)

/-- One `<result>` element of a batch's result list. -/
structure ResultRef where
  result : String
deriving DecidableEq

/-- `getBatchQueryResults` (main module), given the parsed result list
of one batch: normalize a bare single `<result>` element into a
one-element array and fetch each referenced segment stream in order. -/
def getBatchQueryResults (fetchResult : String → Bytes) (resp : OneOrMany ResultRef) :
    List Bytes :=
  (asArray resp).foldl (fun acc r => acc ++ [fetchResult r.result]) []

/-- Specification-side description of header de-duplication used to
state the pipeline characterization: keep the first line, drop every
later line equal to it. -/
def dedupHeaderSpec : List Bytes → List Bytes
  | [] => []
  | h :: t => h :: t.filter (fun l => !(l == h))

/-! ## The stateful `BulkApi` layer -/

/-- The parts of the parsed login response that
`processLoginResponse` reads. -/
structure LoginResult where
  serverUrl : Bytes
  sessionId : Bytes
deriving DecidableEq

/-- The parts of the parsed `jobInfo` element that the client reads. -/
structure JobInfo where
  id : String
  state : String
deriving DecidableEq

/-- The mutable instance fields of a `BulkApi` object (main module),
as initialised by the constructor. -/
structure ApiState where
  loginResponse : Option String
  sessionId : Option Bytes
  url : Option Bytes
  jobUrl : Option Bytes
  jobResonse : Option String
  jobInfo : Option JobInfo
  batchListResponse : Option String
  batchInfos : List BatchInfo
deriving DecidableEq

/-- The constructor's initial field values. -/
def initialState : ApiState :=
  { loginResponse := none
    sessionId := none
    url := none
    jobUrl := none
    jobResonse := none
    jobInfo := none
    batchListResponse := none
    batchInfos := [] }

/-- One network request issued by the client, identified by endpoint
and path parameters. -/
inductive Req where
  | loginReq
  | createJobReq
  | setStateReq (jobId : String) (state : String)
  | jobInfoReq (jobId : String)
  | batchListReq (jobId : String)
  | batchResultListReq (jobId : String) (batchId : String)
  | resultStreamReq (jobId : String) (batchId : String) (resultId : String)
deriving DecidableEq

/-- The remote service and the XML-parser collaborators: `send` gives
the response body for a request, `sendStream` the raw byte stream for
a segment fetch, and the `parse*` functions are the
`fast-xml-parser` contract for each response shape. `apiVersion` is
the constructor option of the same name. -/
structure Env where
  send : Req → String
  sendStream : Req → Bytes
  parseLogin : String → LoginResult
  parseJobInfo : String → JobInfo
  parseBatchList : String → OneOrMany BatchInfo
  parseResultList : String → OneOrMany ResultRef
  apiVersion : Bytes

/-- The JavaScript runtime error raised by dereferencing a property of
`null` (`this.jobInfo.id` with `this.jobInfo === null`). -/
inductive JsError where
  | typeError
deriving DecidableEq

/-- `jobId = jobId || this.jobInfo.id`: use the argument when present,
otherwise read `id` off `this.jobInfo`, which throws a `TypeError`
when `this.jobInfo` is still `null`. -/
def resolveJobId (jobId : Option String) (st : ApiState) : Except JsError String :=
  match jobId with
  | some j => Except.ok j
  | none =>
      match st.jobInfo with
      | some ji => Except.ok ji.id
      | none => Except.error JsError.typeError

/-- The literal text of `indexOf` over byte lists: position of the
first occurrence of `pat`, if any. -/
def indexOfPat (pat : Bytes) : Bytes → Option Nat
  | [] => if pat.isEmpty then some 0 else none
  | c :: rest =>
      if pat.isPrefixOf (c :: rest) then some 0
      else (indexOfPat pat rest).map (· + 1)

/-- The marker `processLoginResponse` locates inside `serverUrl`. -/
def soapMarker : Bytes := "/services/Soap/".data

/-- `this.url = serverUrl.substring(0, serverUrl.indexOf('/services/Soap/'))`
(JavaScript's `substring(0, -1)` yields the empty string when the
marker is absent). -/
def urlBase (s : Bytes) : Bytes :=
  match indexOfPat soapMarker s with
  | some i => s.take i
  | none => []

/-- `processLoginResponse` (main module): derive `this.url`,
`this.sessionId` and `this.jobUrl` from the parsed login response. -/
def processLoginResponse (env : Env) (st : ApiState) : ApiState :=
  match st.loginResponse with
  | none => st
  | some raw =>
      let result := env.parseLogin raw
      let base := urlBase result.serverUrl
      { st with
        url := some base
        sessionId := some result.sessionId
        jobUrl := some (base ++ "/services/async/".data ++
                        env.apiVersion ++ "/job".data) }

/-- `processJobResponse` (main module): store the parsed `jobInfo`
element of `this.jobResonse`. -/
def processJobResponse (env : Env) (st : ApiState) : ApiState :=
  match st.jobResonse with
  | none => st
  | some raw => { st with jobInfo := some (env.parseJobInfo raw) }

/-- `login`: when `this.loginResponse` is already set, return it
without any exchange; otherwise post the login request, cache the
response and process it. The returned list records the requests this
call issued. -/
def login (env : Env) (st : ApiState) : ApiState × String × List Req :=
  match st.loginResponse with
  | some r => (st, r, [])
  | none =>
      let raw := env.send Req.loginReq
      let st2 := processLoginResponse env { st with loginResponse := some raw }
      (st2, raw, [Req.loginReq])

/-- `createJob`: when `this.jobResonse` is already set, return it
without re-issuing the create request; otherwise login, post the job
XML, cache and process the response. -/
def createJob (env : Env) (st : ApiState) : ApiState × String × List Req :=
  match st.jobResonse with
  | some r => (st, r, [])
  | none =>
      let lr := login env st
      let raw := env.send Req.createJobReq
      let st2 := processJobResponse env { lr.1 with jobResonse := some raw }
      (st2, raw, lr.2.2 ++ [Req.createJobReq])

/-- `closeJob`: resolve the job id (possibly throwing), then login and
post the `Closed` state. -/
def closeJob (env : Env) (st : ApiState) (jobId : Option String) :
    Except JsError (ApiState × String) × List Req :=
  match resolveJobId jobId st with
  | .error e => (.error e, [])
  | .ok j =>
      let lr := login env st
      let raw := env.send (Req.setStateReq j "Closed")
      let st2 := processJobResponse env { lr.1 with jobResonse := some raw }
      (.ok (st2, raw), lr.2.2 ++ [Req.setStateReq j "Closed"])

/-- `abortJob`: resolve the job id (possibly throwing), then login and
post the `Aborted` state. -/
def abortJob (env : Env) (st : ApiState) (jobId : Option String) :
    Except JsError (ApiState × String) × List Req :=
  match resolveJobId jobId st with
  | .error e => (.error e, [])
  | .ok j =>
      let lr := login env st
      let raw := env.send (Req.setStateReq j "Aborted")
      let st2 := processJobResponse env { lr.1 with jobResonse := some raw }
      (.ok (st2, raw), lr.2.2 ++ [Req.setStateReq j "Aborted"])

/-- `getJobInfo`: resolve the job id (possibly throwing), then login,
fetch the job status and process it. -/
def getJobInfo (env : Env) (st : ApiState) (jobId : Option String) :
    Except JsError (ApiState × String) × List Req :=
  match resolveJobId jobId st with
  | .error e => (.error e, [])
  | .ok j =>
      let lr := login env st
      let raw := env.send (Req.jobInfoReq j)
      let st2 := processJobResponse env { lr.1 with jobResonse := some raw }
      (.ok (st2, raw), lr.2.2 ++ [Req.jobInfoReq j])

/-- `getBatchInfoList`: resolve the job id (possibly throwing), then
login, fetch the batch list and store the normalized `batchInfos`. -/
def getBatchInfoList (env : Env) (st : ApiState) (jobId : Option String) :
    Except JsError (ApiState × String) × List Req :=
  match resolveJobId jobId st with
  | .error e => (.error e, [])
  | .ok j =>
      let lr := login env st
      let raw := env.send (Req.batchListReq j)
      let st2 := { lr.1 with
                   batchListResponse := some raw
                   batchInfos := asArray (env.parseBatchList raw) }
      (.ok (st2, raw), lr.2.2 ++ [Req.batchListReq j])

/-- `getBatchQueryResults` as the running instance performs it for one
batch: login (a no-op after the very first login), fetch and normalize
the batch's result list, and fetch each referenced segment stream. -/
def getBatchQueryResultsOp (env : Env) (st : ApiState) (batchId : String) (j : String) :
    ApiState × List Bytes × List Req :=
  let lr := login env st
  let raw := env.send (Req.batchResultListReq j batchId)
  let resp := env.parseResultList raw
  ( lr.1,
    getBatchQueryResults
      (fun rid => env.sendStream (Req.resultStreamReq j batchId rid)) resp,
    lr.2.2 ++ [Req.batchResultListReq j batchId] ++
      (asArray resp).map (fun r => Req.resultStreamReq j batchId r.result) )

/-- `getQueryResults` as the running instance performs it: resolve the
job id (possibly throwing), fetch the batch list, collect the segment
streams of every non-`NotProcessed` batch, and run the assembly
pipeline over them. -/
def getQueryResultsOp (env : Env) (st : ApiState) (jobId : Option String) :
    Except JsError (ApiState × List Bytes) × List Req :=
  match resolveJobId jobId st with
  | .error e => (.error e, [])
  | .ok j =>
      match getBatchInfoList env st (some j) with
      | (.error e, t) => (.error e, t)
      | (.ok (st1, _), t) =>
          let acc := st1.batchInfos.foldl
            (fun (acc : ApiState × List Bytes × List Req) bi =>
              if bi.state ≠ "NotProcessed" then
                let step := getBatchQueryResultsOp env acc.1 bi.id j
                (step.1, acc.2.1 ++ step.2.1, acc.2.2 ++ step.2.2)
              else acc)
            (st1, [], [])
          (.ok (acc.1, assembleMerged acc.2.1), t ++ acc.2.2)

/-- A trivial environment (empty responses), used to instantiate
theorems about the stateful layer at a concrete input. -/
def trivialEnv : Env :=
  { send := fun _ => ""
    sendStream := fun _ => []
    parseLogin := fun _ => { serverUrl := [], sessionId := [] }
    parseJobInfo := fun _ => { id := "", state := "" }
    parseBatchList := fun _ => OneOrMany.many []
    parseResultList := fun _ => OneOrMany.many []
    apiVersion := [] }

/-! ## Splitting and merging lemmas -/

theorem splitNlAux_append (a : Bytes) :
    ∀ (b acc : Bytes), splitNlAux (a ++ '\n' :: b) acc = splitNlAux a acc ++ splitNlAux b [] := by
  induction a with
  | nil => intro b acc; simp [splitNlAux]
  | cons c rest ih =>
      intro b acc
      by_cases hc : c = '\n'
      · subst hc; simp [splitNlAux, ih]
      · simp [splitNlAux, hc, ih]

theorem bylineSplit_append (a b : Bytes) :
    bylineSplit (a ++ '\n' :: b) = bylineSplit a ++ bylineSplit b := by
  unfold bylineSplit
  rw [splitNlAux_append, List.filter_append]

theorem mergeSegments_go (l : List Bytes) : ∀ init : Bytes,
    l.foldl (fun acc s => acc ++ s ++ ['\n']) init = init ++ mergeSegments l := by
  induction l with
  | nil => intro init; simp [mergeSegments]
  | cons s t ih =>
      intro init
      have h1 : List.foldl (fun acc s => acc ++ s ++ ['\n']) init (s :: t)
          = List.foldl (fun acc s => acc ++ s ++ ['\n']) (init ++ s ++ ['\n']) t := rfl
      have h2 : mergeSegments (s :: t)
          = List.foldl (fun acc s => acc ++ s ++ ['\n']) (([] : Bytes) ++ s ++ ['\n']) t := rfl
      rw [h1, ih, h2, ih]
      simp

theorem mergeSegments_cons (s : Bytes) (t : List Bytes) :
    mergeSegments (s :: t) = s ++ '\n' :: mergeSegments t := by
  have h2 : mergeSegments (s :: t)
      = List.foldl (fun acc s => acc ++ s ++ ['\n']) (([] : Bytes) ++ s ++ ['\n']) t := rfl
  rw [h2, mergeSegments_go]
  simp

theorem bylineSplit_mergeSegments (segs : List Bytes) :
    bylineSplit (mergeSegments segs) = segs.flatMap bylineSplit := by
  induction segs with
  | nil => rfl
  | cons s t ih =>
      rw [mergeSegments_cons, bylineSplit_append, ih]
      rfl

theorem no_newline_splitNlAux (s : Bytes) : ∀ (acc l : Bytes),
    '\n' ∉ acc → l ∈ splitNlAux s acc → '\n' ∉ l := by
  induction s with
  | nil =>
      intro acc l hacc hl
      simp [splitNlAux] at hl
      subst hl
      simpa using hacc
  | cons c rest ih =>
      intro acc l hacc hl
      by_cases hc : c = '\n'
      · subst hc
        simp [splitNlAux] at hl
        rcases hl with h1 | h2
        · subst h1; simpa using hacc
        · exact ih [] l (by simp) h2
      · simp [splitNlAux, hc] at hl
        refine ih (c :: acc) l ?_ hl
        simp only [List.mem_cons, not_or]
        exact ⟨Ne.symm hc, hacc⟩

theorem no_newline_bylineSplit {s l : Bytes} (hl : l ∈ bylineSplit s) : '\n' ∉ l := by
  unfold bylineSplit at hl
  exact no_newline_splitNlAux s [] l (by simp) (List.mem_filter.mp hl).1

/-! ## Transform characterizations -/

theorem headerRemovrGo_some_eq (h : Bytes) : ∀ ls : List Bytes,
    headerRemovrGo (some h) ls = ls.filter (fun l => !(l == h) && !isBlankLine l) := by
  intro ls
  induction ls with
  | nil => rfl
  | cons l t ih =>
      cases hb : isBlankLine l
      · by_cases he : l = h
        · subst he; simp [headerRemovrGo, hb, List.filter_cons, ih]
        · simp [headerRemovrGo, hb, he, List.filter_cons, ih]
      · simp [headerRemovrGo, hb, List.filter_cons, ih]

theorem headerRemovr_eq : ∀ ls : List Bytes,
    headerRemovr ls = dedupHeaderSpec (ls.filter (fun l => !isBlankLine l)) := by
  intro ls
  unfold headerRemovr
  induction ls with
  | nil => rfl
  | cons l t ih =>
      cases hb : isBlankLine l
      · simp [headerRemovrGo, hb, List.filter_cons, dedupHeaderSpec,
              headerRemovrGo_some_eq, List.filter_filter]
      · simp [headerRemovrGo, hb, List.filter_cons, ih]

theorem newlineAddr_eq : ∀ ls : List Bytes,
    newlineAddr ls = (ls.filter (fun l => !isBlankLine l)).map (· ++ ['\n'])
  | [] => rfl
  | l :: t => by
      have ih := newlineAddr_eq t
      unfold newlineAddr at ih ⊢
      cases hb : isBlankLine l <;>
        simp [List.filterMap_cons, hb, List.filter_cons, ih]

theorem dedupHeaderSpec_sublist : ∀ ls : List Bytes, (dedupHeaderSpec ls).Sublist ls
  | [] => List.Sublist.refl _
  | h :: t => List.Sublist.cons₂ h (List.filter_sublist t)

theorem mem_dedupHeaderSpec {l : Bytes} : ∀ {ls : List Bytes}, l ∈ ls → l ∈ dedupHeaderSpec ls := by
  intro ls hl
  match ls, hl with
  | h :: t, hl =>
      rcases List.mem_cons.mp hl with rfl | hm
      · exact List.mem_cons_self _ _
      · by_cases he : l = h
        · subst he; exact List.mem_cons_self _ _
        · exact List.mem_cons_of_mem _ (List.mem_filter.mpr ⟨hm, by simp [he]⟩)

theorem mem_of_dedupHeaderSpec {l : Bytes} {ls : List Bytes}
    (h : l ∈ dedupHeaderSpec ls) : l ∈ ls :=
  (dedupHeaderSpec_sublist ls).subset h

/-- Full characterization of the assembly pipeline: the merged output
is the per-segment line lists concatenated in order, with junk and
blank lines removed, every later duplicate of the first surviving line
removed, and one newline re-appended to each surviving line. -/
theorem assembleMerged_eq (segs : List Bytes) :
    assembleMerged segs =
      (dedupHeaderSpec ((segs.flatMap bylineSplit).filter
        (fun l => !isBlankLine l && !matchesAnyJunk builtinJunk l))).map (· ++ ['\n']) := by
  unfold assembleMerged junkRemovr
  rw [bylineSplit_mergeSegments, headerRemovr_eq, newlineAddr_eq, List.filter_filter]
  have hW : ∀ a ∈ dedupHeaderSpec ((segs.flatMap bylineSplit).filter
      (fun l => !isBlankLine l && !matchesAnyJunk builtinJunk l)), (!isBlankLine a) = true := by
    intro a ha
    have hmem := mem_of_dedupHeaderSpec ha
    have hp := (List.mem_filter.mp hmem).2
    simp only [Bool.and_eq_true] at hp
    exact hp.1
  rw [List.filter_eq_self.mpr hW]

/-! ## Enumeration and normalization lemmas -/

theorem processBatchListResponse_go : ∀ (l : List BatchInfo) (init : List String),
    l.foldl (fun acc bi => if bi.state ≠ "NotProcessed" then acc ++ [bi.id] else acc) init
      = init ++ ((l.filter (fun bi => bi.state ≠ "NotProcessed")).map (fun bi => bi.id)) := by
  intro l
  induction l with
  | nil => intro init; simp
  | cons bi t ih =>
      intro init
      rw [List.foldl_cons]
      by_cases hs : bi.state ≠ "NotProcessed"
      · rw [if_pos hs, ih, List.filter_cons]
        simp [hs]
      · rw [if_neg hs, ih, List.filter_cons]
        simp [hs]

theorem processBatchListResponse_eq (raw : OneOrMany BatchInfo) :
    processBatchListResponse raw
      = ((asArray raw).filter (fun bi => bi.state ≠ "NotProcessed")).map (fun bi => bi.id) := by
  unfold processBatchListResponse
  rw [processBatchListResponse_go]
  rfl

theorem selectStreams_go (segsOf : String → List Bytes) :
    ∀ (l : List BatchInfo) (init : List Bytes),
    l.foldl (fun acc bi => if bi.state ≠ "NotProcessed" then acc ++ segsOf bi.id else acc) init
      = init ++ ((l.filter (fun bi => bi.state ≠ "NotProcessed")).flatMap
                  (fun bi => segsOf bi.id)) := by
  intro l
  induction l with
  | nil => intro init; simp
  | cons bi t ih =>
      intro init
      rw [List.foldl_cons]
      by_cases hs : bi.state ≠ "NotProcessed"
      · rw [if_pos hs, ih, List.filter_cons]
        simp [hs]
      · rw [if_neg hs, ih, List.filter_cons]
        simp [hs]

theorem selectStreams_eq (batchInfos : List BatchInfo) (segsOf : String → List Bytes) :
    selectStreams batchInfos segsOf
      = (batchInfos.filter (fun bi => bi.state ≠ "NotProcessed")).flatMap
          (fun bi => segsOf bi.id) := by
  unfold selectStreams
  rw [selectStreams_go]
  rfl

theorem getBatchQueryResults_go (fetch : String → Bytes) :
    ∀ (l : List ResultRef) (init : List Bytes),
    l.foldl (fun acc r => acc ++ [fetch r.result]) init
      = init ++ l.map (fun r => fetch r.result) := by
  intro l
  induction l with
  | nil => intro init; simp
  | cons r t ih =>
      intro init
      rw [List.foldl_cons, ih]
      simp

theorem getBatchQueryResults_eq (fetch : String → Bytes) (resp : OneOrMany ResultRef) :
    getBatchQueryResults fetch resp = (asArray resp).map (fun r => fetch r.result) := by
  unfold getBatchQueryResults
  rw [getBatchQueryResults_go]
  rfl

/-! ## Counting lemmas for header de-duplication -/

theorem count_dedupHeaderSpec_cons (h : Bytes) (t : List Bytes) :
    (dedupHeaderSpec (h :: t)).count h = 1 := by
  unfold dedupHeaderSpec
  rw [List.count_cons_self]
  have : h ∉ t.filter (fun l => !(l == h)) := by
    intro hmem
    have := (List.mem_filter.mp hmem).2
    simp at this
  rw [List.count_eq_zero.mpr this]

theorem count_map_append_newline (h : Bytes) (K : List Bytes) :
    (K.map (· ++ ['\n'])).count (h ++ ['\n']) = K.count h := by
  induction K with
  | nil => rfl
  | cons a t ih =>
      rw [List.map_cons]
      by_cases hah : a = h
      · subst hah
        rw [List.count_cons_self, List.count_cons_self, ih]
      · have h1 : (h ++ ['\n']) ≠ (a ++ ['\n']) := by
          intro e
          exact hah (List.append_cancel_right e).symm
        rw [List.count_cons_of_ne h1, List.count_cons_of_ne (Ne.symm hah), ih]

/-! ## Shared facts about the merged output -/

/-- Every output line is a surviving input line with one newline
re-appended: it came from some segment's line list, is non-blank and
non-junk. -/
theorem output_shape {segs : List Bytes} {o : Bytes}
    (ho : o ∈ assembleMerged segs) :
    ∃ m : Bytes, o = m ++ ['\n'] ∧ m ∈ segs.flatMap bylineSplit ∧
      isBlankLine m = false ∧ matchesAnyJunk builtinJunk m = false := by
  rw [assembleMerged_eq] at ho
  rcases List.mem_map.mp ho with ⟨m, hm, rfl⟩
  have hmem := mem_of_dedupHeaderSpec hm
  have hp := List.mem_filter.mp hmem
  have hb := hp.2
  simp only [Bool.and_eq_true, Bool.not_eq_true'] at hb
  exact ⟨m, rfl, hp.1, hb.1, hb.2⟩

/-- A line matching a configured junk pattern never appears in the
merged output. -/
theorem junk_absent (segs : List Bytes) (l : Bytes)
    (hj : matchesAnyJunk builtinJunk l = true) :
    (l ++ ['\n']) ∉ assembleMerged segs := by
  intro hmem
  rcases output_shape hmem with ⟨m, he, _, _, hjm⟩
  have : m = l := (List.append_cancel_right he).symm
  subst this
  rw [hjm] at hj
  exact Bool.false_ne_true hj

/-- Every non-junk, non-blank input line (from any segment) appears in
the merged output. -/
theorem nonjunk_present (segs : List Bytes) (l : Bytes)
    (hl : l ∈ segs.flatMap bylineSplit)
    (hj : matchesAnyJunk builtinJunk l = false)
    (hb : isBlankLine l = false) :
    (l ++ ['\n']) ∈ assembleMerged segs := by
  rw [assembleMerged_eq]
  refine List.mem_map.mpr ⟨l, ?_, rfl⟩
  exact mem_dedupHeaderSpec (List.mem_filter.mpr ⟨hl, by rw [hj, hb]; rfl⟩)

/-- The merged output is a subsequence of the newline-terminated input
lines: surviving lines keep their original relative order. -/
theorem output_sublist (segs : List Bytes) :
    (assembleMerged segs).Sublist ((segs.flatMap bylineSplit).map (· ++ ['\n'])) := by
  rw [assembleMerged_eq]
  refine List.Sublist.map _ ?_
  exact (dedupHeaderSpec_sublist _).trans (List.filter_sublist _)

/-- Every output line is non-blank with exactly one newline, at the
end. -/
theorem output_line_shape {segs : List Bytes} {o : Bytes}
    (ho : o ∈ assembleMerged segs) :
    ∃ m : Bytes, o = m ++ ['\n'] ∧ isBlankLine m = false ∧ '\n' ∉ m := by
  rcases output_shape ho with ⟨m, he, hmem, hb, _⟩
  rcases List.mem_flatMap.mp hmem with ⟨s, _, hms⟩
  exact ⟨m, he, hb, no_newline_bylineSplit hms⟩

/-- Blank-only content never appears as a line of the merged output. -/
theorem blank_not_mem (segs : List Bytes) (b : Bytes)
    (hb : isBlankLine b = true) : b ∉ assembleMerged segs := by
  intro hmem
  rcases output_line_shape hmem with ⟨m, rfl, hm, _⟩
  have : isBlankLine m = true := by
    unfold isBlankLine at hb ⊢
    rw [List.all_append] at hb
    simp only [Bool.and_eq_true] at hb
    exact hb.1
  rw [hm] at this
  exact Bool.false_ne_true this

/-- The stream components accumulated by `getQueryResultsOp`'s loop:
each batch's streams depend only on the environment, so the loop
collects exactly the eligible batches' segment streams in order. -/
theorem queryFold_streams (env : Env) (j : String) :
    ∀ (l : List BatchInfo) (acc0 : ApiState × List Bytes × List Req),
      (l.foldl (fun (acc : ApiState × List Bytes × List Req) bi =>
          if bi.state ≠ "NotProcessed" then
            let step := getBatchQueryResultsOp env acc.1 bi.id j
            (step.1, acc.2.1 ++ step.2.1, acc.2.2 ++ step.2.2)
          else acc) acc0).2.1
        = acc0.2.1 ++ (l.filter (fun bi => bi.state ≠ "NotProcessed")).flatMap
            (fun bi => getBatchQueryResults
              (fun rid => env.sendStream (Req.resultStreamReq j bi.id rid))
              (env.parseResultList (env.send (Req.batchResultListReq j bi.id)))) := by
  intro l
  induction l with
  | nil => intro acc0; simp
  | cons bi t ih =>
      intro acc0
      rw [List.foldl_cons]
      by_cases hs : bi.state ≠ "NotProcessed"
      · rw [if_pos hs, ih, List.filter_cons]
        simp [hs, getBatchQueryResultsOp, List.append_assoc]
      · rw [if_neg hs, ih, List.filter_cons]
        simp [hs]

/-- With a jobId supplied, the stateful `getQueryResultsOp` succeeds
and its merged stream is exactly the pure `getQueryResults` applied to
the fetched batch list and the environment's segment streams. -/
theorem getQueryResultsOp_merges (env : Env) (st : ApiState) (j : String) :
    ((getQueryResultsOp env st (some j)).1).map (fun r => r.2)
      = Except.ok (getQueryResults
          (asArray (env.parseBatchList (env.send (Req.batchListReq j))))
          (fun bid => getBatchQueryResults
            (fun rid => env.sendStream (Req.resultStreamReq j bid rid))
            (env.parseResultList (env.send (Req.batchResultListReq j bid))))) := by
  have h1 : getQueryResultsOp env st (some j)
      = (let lr := login env st
         let raw := env.send (Req.batchListReq j)
         let st1 : ApiState := { lr.1 with
                                 batchListResponse := some raw
                                 batchInfos := asArray (env.parseBatchList raw) }
         let acc := st1.batchInfos.foldl
            (fun (acc : ApiState × List Bytes × List Req) bi =>
              if bi.state ≠ "NotProcessed" then
                let step := getBatchQueryResultsOp env acc.1 bi.id j
                (step.1, acc.2.1 ++ step.2.1, acc.2.2 ++ step.2.2)
              else acc)
            (st1, [], [])
         (Except.ok (acc.1, assembleMerged acc.2.1),
          (lr.2.2 ++ [Req.batchListReq j]) ++ acc.2.2)) := rfl
  rw [h1]
  simp only [Except.map]
  rw [queryFold_streams]
  unfold getQueryResults
  rw [selectStreams_eq]
  simp

/-- When every segment's first line is the (non-blank, non-junk) header
`H`, the assembled output starts with `H` plus newline and contains
exactly one line equal to it. -/
theorem header_once (segs : List Bytes) (H : Bytes)
    (hnb : isBlankLine H = false)
    (hnj : matchesAnyJunk builtinJunk H = false)
    (hne : segs ≠ [])
    (hH : ∀ s ∈ segs, (bylineSplit s).head? = some H) :
    (assembleMerged segs).count (H ++ ['\n']) = 1
    ∧ (assembleMerged segs).head? = some (H ++ ['\n']) := by
  rcases List.exists_cons_of_ne_nil hne with ⟨s₀, rest, rfl⟩
  have h0 := hH s₀ (List.mem_cons_self _ _)
  have hex : ∃ t₀, bylineSplit s₀ = H :: t₀ := by
    cases hbs : bylineSplit s₀ with
    | nil => rw [hbs] at h0; simp at h0
    | cons a t =>
        rw [hbs] at h0
        simp at h0
        exact ⟨t, by rw [h0]⟩
  rcases hex with ⟨t₀, ht₀⟩
  have hlines : (s₀ :: rest).flatMap bylineSplit
      = H :: (t₀ ++ rest.flatMap bylineSplit) := by
    rw [List.flatMap_cons, ht₀]
    rfl
  have hp : (!isBlankLine H && !matchesAnyJunk builtinJunk H) = true := by
    rw [hnb, hnj]; rfl
  rw [assembleMerged_eq, hlines]
  simp only [List.filter_cons, hp, if_true]
  constructor
  · rw [count_map_append_newline]
    exact count_dedupHeaderSpec_cons H _
  · simp [dedupHeaderSpec]

/-! ## The claims -/

/-- Claim C1: for every collection of eligible segment streams (at
least one of them) each starting with the same non-blank, non-junk
header line `H`, the merged output of `getQueryResults` contains
exactly one line equal to `H` — its first line — because the recorded
header is one rolling piece of state across all segments and Batches. -/
theorem claim_C1 (bis : List BatchInfo) (segsOf : String → List Bytes) (H : Bytes)
    (hnb : isBlankLine H = false)
    (hnj : matchesAnyJunk builtinJunk H = false)
    (hne : selectStreams bis segsOf ≠ [])
    (hH : ∀ s ∈ selectStreams bis segsOf, (bylineSplit s).head? = some H) :
    (getQueryResults bis segsOf).count (H ++ ['\n']) = 1
    ∧ (getQueryResults bis segsOf).head? = some (H ++ ['\n']) :=
  header_once (selectStreams bis segsOf) H hnb hnj hne hH

/-- Witness for C1: two Completed Batches with identical segments each
headed by `Id,Name`; the merged output carries that header exactly
once, first. -/
theorem claim_C1_witness :
    (getQueryResults
        [{ id := "B1", state := "Completed" }, { id := "B2", state := "Completed" }]
        (fun _ => ["Id,Name\n001,Foo".data])).count ("Id,Name".data ++ ['\n']) = 1
    ∧ (getQueryResults
        [{ id := "B1", state := "Completed" }, { id := "B2", state := "Completed" }]
        (fun _ => ["Id,Name\n001,Foo".data])).head? = some ("Id,Name".data ++ ['\n']) :=
  claim_C1 [{ id := "B1", state := "Completed" }, { id := "B2", state := "Completed" }]
    (fun _ => ["Id,Name\n001,Foo".data]) "Id,Name".data
    (by decide) (by decide) (by decide) (by decide)

/-- Claim C2: every line matching one of the two built-in junk
patterns is absent from the merged output of `getQueryResults`; every
non-matching, non-blank segment line is present in the output; and the
output preserves the original relative order of the segment lines. -/
theorem claim_C2 (bis : List BatchInfo) (segsOf : String → List Bytes) :
    (∀ l : Bytes, matchesAnyJunk builtinJunk l = true →
        (l ++ ['\n']) ∉ getQueryResults bis segsOf)
    ∧ (∀ l ∈ (selectStreams bis segsOf).flatMap bylineSplit,
        matchesAnyJunk builtinJunk l = false → isBlankLine l = false →
        (l ++ ['\n']) ∈ getQueryResults bis segsOf)
    ∧ (getQueryResults bis segsOf).Sublist
        (((selectStreams bis segsOf).flatMap bylineSplit).map (· ++ ['\n'])) :=
  ⟨fun l hj => junk_absent (selectStreams bis segsOf) l hj,
   fun l hl hj hb => nonjunk_present (selectStreams bis segsOf) l hl hj hb,
   output_sublist (selectStreams bis segsOf)⟩

/-- Witness for C2: the data row `001,Foo` is non-junk and non-blank
and indeed appears in the merged output. -/
theorem claim_C2_witness :
    ("001,Foo".data ++ ['\n']) ∈ getQueryResults [{ id := "B1", state := "Completed" }]
      (fun _ => ["Id,Name\n001,Foo".data]) :=
  (claim_C2 [{ id := "B1", state := "Completed" }]
      (fun _ => ["Id,Name\n001,Foo".data])).2.1
    "001,Foo".data (by decide) (by decide) (by decide)

/-- Claim C3: Batch enumeration normalizes the one-or-many parsed
batch list into one ordered sequence and yields exactly the ids of the
Batches whose state is not `NotProcessed`; a single-Batch and a
one-element response agree; a lone `NotProcessed` Batch yields the
empty enumeration; and `getQueryResults`'s stream selection visits
exactly the non-`NotProcessed` subset in order. -/
theorem claim_C3 (raw : OneOrMany BatchInfo) :
    processBatchListResponse raw
        = ((asArray raw).filter (fun bi => bi.state ≠ "NotProcessed")).map (fun bi => bi.id)
    ∧ (∀ b : BatchInfo, processBatchListResponse (OneOrMany.one b)
        = processBatchListResponse (OneOrMany.many [b]))
    ∧ (∀ b : BatchInfo, b.state = "NotProcessed" →
        processBatchListResponse (OneOrMany.one b) = [])
    ∧ (∀ (bis : List BatchInfo) (segsOf : String → List Bytes),
        selectStreams bis segsOf
          = (bis.filter (fun bi => bi.state ≠ "NotProcessed")).flatMap
              (fun bi => segsOf bi.id)) :=
  ⟨processBatchListResponse_eq raw,
   fun _ => rfl,
   fun b hb => by simp [processBatchListResponse, asArray, hb],
   fun bis segsOf => selectStreams_eq bis segsOf⟩

/-- Witness for C3: a Batch list whose only Batch is `NotProcessed`
enumerates to the empty list. -/
theorem claim_C3_witness :
    processBatchListResponse (OneOrMany.one { id := "B0", state := "NotProcessed" }) = [] :=
  (claim_C3 (OneOrMany.one { id := "B0", state := "NotProcessed" })).2.2.1
    { id := "B0", state := "NotProcessed" } rfl

/-- Claim C4: when no Batch contributes a segment (each Batch is
`NotProcessed` or has no segments), `getQueryResults` returns the
empty merged stream — no data lines, no header line, no error. -/
theorem claim_C4 (bis : List BatchInfo) (segsOf : String → List Bytes)
    (h : ∀ bi ∈ bis, bi.state = "NotProcessed" ∨ segsOf bi.id = []) :
    getQueryResults bis segsOf = [] := by
  unfold getQueryResults
  have hsel : selectStreams bis segsOf = [] := by
    rw [selectStreams_eq]
    rw [List.flatMap_eq_nil_iff]
    intro bi hbi
    have hmem := List.mem_filter.mp hbi
    rcases h bi hmem.1 with hs | hz
    · exfalso
      have := hmem.2
      simp [hs] at this
    · exact hz
  rw [hsel]
  rfl

/-- Witness for C4: a PK-chunking sentinel as the only Batch yields the
empty merged stream. -/
theorem claim_C4_witness :
    getQueryResults [{ id := "B0", state := "NotProcessed" }]
      (fun _ => ["Id,Name\n001,Foo".data]) = [] :=
  claim_C4 [{ id := "B0", state := "NotProcessed" }]
    (fun _ => ["Id,Name\n001,Foo".data]) (by decide)

/-- Claim C5: every line of the merged output is non-blank and carries
exactly one newline, at its end; blank-only input lines never appear
in the merged output. -/
theorem claim_C5 (segs : List Bytes) :
    (∀ o ∈ assembleMerged segs, ∃ m : Bytes,
        o = m ++ ['\n'] ∧ isBlankLine m = false ∧ '\n' ∉ m)
    ∧ (∀ b : Bytes, isBlankLine b = true → b ∉ assembleMerged segs) :=
  ⟨fun _ ho => output_line_shape ho, fun b hb => blank_not_mem segs b hb⟩

/-- Witness for C5: the single output line of a one-line segment is
`a` plus exactly one trailing newline. -/
theorem claim_C5_witness :
    ∃ m : Bytes, ('a' :: '\n' :: List.nil) = m ++ ['\n']
      ∧ isBlankLine m = false ∧ '\n' ∉ m :=
  (claim_C5 ["a".data]).1 ('a' :: '\n' :: List.nil) (by decide)

/-- Claim C6: the merge inserts a newline between adjacent segment
streams, so the line decomposition of the merged byte stream is
exactly the concatenation of the per-segment line decompositions — no
line ever spans a segment boundary, even without a trailing newline. -/
theorem claim_C6 (segs : List Bytes) :
    (∀ (s : Bytes) (t : List Bytes), mergeSegments (s :: t) = s ++ '\n' :: mergeSegments t)
    ∧ bylineSplit (mergeSegments segs) = segs.flatMap bylineSplit :=
  ⟨mergeSegments_cons, bylineSplit_mergeSegments segs⟩

/-- Claim C7: on one instance, a second `createJob` and a second
`login` return the cached responses, issue no further request, and
leave the whole instance state unchanged. -/
theorem claim_C7 (env : Env) (st : ApiState) :
    createJob env (createJob env st).1
        = ((createJob env st).1, (createJob env st).2.1, ([] : List Req))
    ∧ login env (login env st).1
        = ((login env st).1, (login env st).2.1, ([] : List Req)) := by
  constructor
  · cases hj : st.jobResonse with
    | some r => simp [createJob, hj]
    | none =>
        cases hl : st.loginResponse with
        | some r => simp [createJob, login, processJobResponse, hj, hl]
        | none =>
            simp [createJob, login, processJobResponse, processLoginResponse, hj, hl]
  · cases hl : st.loginResponse with
    | some r => simp [login, hl]
    | none => simp [login, processLoginResponse, hl]

/-- Claim C8: a bare single `<result>` element and a one-element result
list normalize to the same one-element segment sequence and give
identical downstream assembly. -/
theorem claim_C8 (fetch : String → Bytes) (r : ResultRef) :
    getBatchQueryResults fetch (OneOrMany.one r)
        = getBatchQueryResults fetch (OneOrMany.many [r])
    ∧ getBatchQueryResults fetch (OneOrMany.one r) = [fetch r.result]
    ∧ assembleMerged (getBatchQueryResults fetch (OneOrMany.one r))
        = assembleMerged (getBatchQueryResults fetch (OneOrMany.many [r])) :=
  ⟨rfl, rfl, rfl⟩

/-- Claim C9: the `no records` junk pattern is an unanchored substring
match — any line containing that text anywhere, including a CSV data
row, is dropped whole from the merged output. -/
theorem claim_C9 (bis : List BatchInfo) (segsOf : String → List Bytes) (l : Bytes)
    (h : containsSub noRecordsPat l = true) :
    (l ++ ['\n']) ∉ getQueryResults bis segsOf := by
  apply junk_absent
  simp [matchesAnyJunk, builtinJunk, h]

/-- Witness for C9: a data row whose field merely contains the
sentinel text is dropped from the merged output. -/
theorem claim_C9_witness :
    ("001,Records not found for this query x".data ++ ['\n'])
      ∉ getQueryResults [{ id := "B1", state := "Completed" }]
          (fun _ => ["Id,Note\n001,Records not found for this query x".data]) :=
  claim_C9 [{ id := "B1", state := "Completed" }]
    (fun _ => ["Id,Note\n001,Records not found for this query x".data])
    "001,Records not found for this query x".data (by decide)

/-- Claim C10: with the jobId argument omitted and no job yet on the
instance, each of the five operations throws a TypeError from
dereferencing `this.jobInfo.id` and issues no network request. -/
theorem claim_C10 (env : Env) (st : ApiState) (h : st.jobInfo = none) :
    getQueryResultsOp env st none = (Except.error JsError.typeError, [])
    ∧ getBatchInfoList env st none = (Except.error JsError.typeError, [])
    ∧ getJobInfo env st none = (Except.error JsError.typeError, [])
    ∧ closeJob env st none = (Except.error JsError.typeError, [])
    ∧ abortJob env st none = (Except.error JsError.typeError, []) := by
  refine ⟨?_, ?_, ?_, ?_, ?_⟩ <;>
    simp [getQueryResultsOp, getBatchInfoList, getJobInfo, closeJob, abortJob,
          resolveJobId, h]

/-- Witness for C10: a freshly constructed instance with every
operation called without a jobId. -/
theorem claim_C10_witness :
    getQueryResultsOp trivialEnv initialState none = (Except.error JsError.typeError, [])
    ∧ getBatchInfoList trivialEnv initialState none = (Except.error JsError.typeError, [])
    ∧ getJobInfo trivialEnv initialState none = (Except.error JsError.typeError, [])
    ∧ closeJob trivialEnv initialState none = (Except.error JsError.typeError, [])
    ∧ abortJob trivialEnv initialState none = (Except.error JsError.typeError, []) :=
  claim_C10 trivialEnv initialState rfl

end SfBulk
